import Mathlib

/-!
Shallow embedding of the BCM2837 mini-UART driver (`src/bcm2837/src/uart.rs`)
from the `tock-raspi` repository, together with proofs about its
initialization sequence and blocking byte-level I/O.

Modelling choices, read off the source:

* All registers are 32-bit (`u32`); we model their contents as `Nat`,
  taking values `< 2 ^ 32` where it matters (stated as hypotheses).
* The two `Aliased` registers (`rbr_thr` at 0x40 and `iir_fcr` at 0x48)
  have a read-view and a write-view that are distinct hardware cells: a
  value written through the write-view is never observable through the
  read-view.  We therefore model the write-views (`thr`, `fcr`) as cells
  of the software-writable register state, and the read-views (`rbr`,
  `iir`) together with the `ReadOnly` registers (`lsr`, `msr`, `scratch`,
  `status`) as hardware-produced inputs, delivered by a time-indexed
  oracle: each hardware poll observes the oracle at the current instant
  and advances time by one.
* `tock_registers` operations on a `ReadWrite` register:
  - `set v` stores the raw 32-bit value `v`;
  - `read field` extracts `(reg >>> offset) &&& (2 ^ numbits - 1)`;
  - `modify fv` performs a read-modify-write
    `reg := (reg &&& !mask) ||| value` where `mask`/`value` come from the
    field-value; `A::SET` contributes `value = mask`, `A::CLEAR` and
    enum variants contribute the stated bits; `+` unions masks and values.
  - `write fv` overwrites the whole register with `value` (unset bits 0).
* The unbounded spin loops (`while self.0.lsr.read(..) == 0 {}`) are
  embedded with an explicit fuel argument: `none` means the loop has not
  exited within the given number of polls (the real code blocks forever
  in that case); `some` is the unique returning behaviour.
-/

/-- All-ones 32-bit mask (0xFFFFFFFF), the width of every register. -/
def MASK32 : Nat := 2 ^ 32 - 1

/-- Semantics of `tock_registers` `modify` with a field-value of bit-mask
`mask` and positioned bits `value`: `reg := (reg &&& !mask) ||| value`,
where negation is within the 32-bit register width. -/
def fvModify (reg mask value : Nat) : Nat :=
  (reg &&& (MASK32 ^^^ mask)) ||| value

/-- Semantics of `tock_registers` `read` of a field at `offset` with
`numbits` bits: `(reg >>> offset) &&& (2 ^ numbits - 1)`. -/
def fieldRead (reg offset numbits : Nat) : Nat :=
  (reg >>> offset) &&& (2 ^ numbits - 1)

/-- Software-writable part of the mini-UART register block (`Registers`
struct in `uart.rs`): the `ReadWrite` registers plus the write-views of
the two `Aliased` registers.  `thr` is the write-view of `rbr_thr`
(transmit holding) and `fcr` the write-view of `iir_fcr` (FIFO control).
The `ReadOnly` registers and the read-views are hardware-owned and appear
as oracle inputs (`HWInput`), since the driver can only observe them. -/
@[ext]
structure RegState where
  irq : Nat
  enables : Nat
  thr : Nat
  ier : Nat
  fcr : Nat
  lcr : Nat
  mcr : Nat
  control : Nat
  baud : Nat
  deriving Repr, DecidableEq

/-- One observation of the hardware-owned read-only cells the driver
actually reads: the line-status register `lsr` and the read-view `rbr`
(receive buffer) of the aliased data register.  (`msr`, `scratch`,
`status` and the `iir` read-view exist in the block but are never read by
the driver, so they are omitted from the observation.) -/
structure HWInput where
  rbr : Nat
  lsr : Nat
  deriving Repr, DecidableEq

/-- A hardware trace: what the read-only cells contain at each successive
hardware access instant. -/
def HWTrace : Type := Nat → HWInput

/-- Embedding of `UART::init` (uart.rs lines 170-183).  The eight steps in
source order:
1. `enables.modify(Mux::UART::SET)` — UART at offset 0, 1 bit: mask 1, value 1;
2. `control.modify(CNTL::ReceiverEnable::SET)` — offset 0, 1 bit: mask 1, value 1;
3. `lcr.modify(LCR::DataWordLength::Bits8)` — offset 0, 2 bits, Bits8 = 3: mask 3, value 3;
4. `mcr.modify(MCR::RequestToSend::CLEAR)` — offset 1, 1 bit: mask 2, value 0;
5. `ier.set(0)`;
6. `iir_fcr.write(FCR::ClearReceiveFIFO::CLEAR + FCR::ClearTransmitFIFO::CLEAR)`
   — both field-values carry value 0, so the full-register write stores 0;
7. `baud.set(25000000 / 8 / 115200)` (integer division);
8. `control.modify(CNTL::ReceiverEnable::SET + CNTL::TransmitterEnable::SET)`
   — offsets 0 and 1, 1 bit each: mask 3, value 3. -/
def init (s : RegState) : RegState :=
  let s1 := { s  with enables := fvModify s.enables 1 1 }
  let s2 := { s1 with control := fvModify s1.control 1 1 }
  let s3 := { s2 with lcr := fvModify s2.lcr 3 3 }
  let s4 := { s3 with mcr := fvModify s3.mcr 2 0 }
  let s5 := { s4 with ier := 0 }
  let s6 := { s5 with fcr := 0 }
  let s7 := { s6 with baud := 25000000 / 8 / 115200 }
  { s7 with control := fvModify s7.control 3 3 }

/-- Embedding of `UART::write_byte` (uart.rs lines 185-188).  The loop
`while self.0.lsr.read(LSR::THREmpty) == 0 {}` polls the line-status
register (THREmpty is at offset 5, 1 bit), one hardware access per
iteration; once the flag reads non-zero, `self.0.rbr_thr.set(byte as u32)`
stores the byte in the write-view of the data register.  `fuel` bounds the
number of polls; `none` models the loop still spinning. -/
def write_byte (hw : HWTrace) (b : Fin 256) :
    Nat → Nat → RegState → Option (RegState × Nat)
  | 0, _, _ => none
  | fuel + 1, t, s =>
    if fieldRead (hw t).lsr 5 1 = 0 then
      write_byte hw b fuel (t + 1) s
    else
      some ({ s with thr := b.val }, t + 1)

/-- Embedding of `UART::write_bytes` (uart.rs lines 190-194): a `for` loop
applying `write_byte` to each element of the slice in order.  Each call
gets the full `fuel` budget for its own spin loop. -/
def write_bytes (hw : HWTrace) (fuel : Nat) :
    List (Fin 256) → Nat → RegState → Option (RegState × Nat)
  | [], t, s => some (s, t)
  | b :: rest, t, s =>
    match write_byte hw b fuel t s with
    | none => none
    | some (s', t') => write_bytes hw fuel rest t' s'

/-- Embedding of `UART::read_byte` (uart.rs lines 196-199).  The loop
`while self.0.lsr.read(LSR::DataAvailable) == 0 {}` polls the line-status
register (DataAvailable is at offset 0, 1 bit); once it reads non-zero,
`self.0.rbr_thr.read(RBR::Data) as u8` performs one further hardware
access, reading the Data field (offset 0, 8 bits) of the receive-buffer
read-view.  Returns the byte and the advanced time. -/
def read_byte (hw : HWTrace) : Nat → Nat → Option (Nat × Nat)
  | 0, _ => none
  | fuel + 1, t =>
    if fieldRead (hw t).lsr 0 1 = 0 then
      read_byte hw fuel (t + 1)
    else
      some (fieldRead (hw (t + 1)).rbr 0 8, t + 2)

/-- Embedding of `<UART as Write>::write_str` (uart.rs lines 202-207): it
calls `write_bytes` on the string's UTF-8 bytes (`s.as_bytes()`, here the
byte list itself) and returns `Ok(())`.  `none` models the inherited
blocking of `write_bytes`; whenever the call returns, the `Except` value
is the `core::fmt::Result`. -/
def write_str (hw : HWTrace) (fuel : Nat) (bytes : List (Fin 256))
    (t : Nat) (s : RegState) : Option ((RegState × Nat) × Except Unit Unit) :=
  match write_bytes hw fuel bytes t s with
  | none => none
  | some p => some (p, Except.ok ())

/-! ### Helper lemmas about the register bit operations -/

/-- Bits of the numeral 1 (a one-bit mask at offset 0). -/
lemma testBit_num1 (i : Nat) : Nat.testBit 1 i = decide (i < 1) :=
  Nat.testBit_two_pow_sub_one 1 i

/-- Bits of the numeral 3 (a two-bit mask at offset 0). -/
lemma testBit_num3 (i : Nat) : Nat.testBit 3 i = decide (i < 2) :=
  Nat.testBit_two_pow_sub_one 2 i

/-- Bits of the 32-bit all-ones mask. -/
lemma testBit_MASK32 (i : Nat) : Nat.testBit MASK32 i = decide (i < 32) :=
  Nat.testBit_two_pow_sub_one 32 i

/-- Applying the same read-modify-write twice is the same as applying it
once (bitwise: ((a && b || c) && b) || c = (a && b) || c). -/
lemma fvModify_idem (r m v : Nat) :
    fvModify (fvModify r m v) m v = fvModify r m v := by
  apply Nat.eq_of_testBit_eq
  intro i
  simp only [fvModify, Nat.testBit_or, Nat.testBit_and]
  generalize Nat.testBit r i = a
  generalize Nat.testBit (MASK32 ^^^ m) i = b
  generalize Nat.testBit v i = c
  revert a b c
  decide

/-- Setting bit 0 (mask 1, value 1) after bits 0-1 were already set
(mask 3, value 3) changes nothing. -/
lemma fvModify_one_after_three (r : Nat) :
    fvModify (fvModify r 3 3) 1 1 = fvModify r 3 3 := by
  apply Nat.eq_of_testBit_eq
  intro i
  simp only [fvModify, Nat.testBit_or, Nat.testBit_and, Nat.testBit_xor,
    testBit_num1, testBit_num3, testBit_MASK32]
  by_cases h2 : i < 2
  · interval_cases i <;> simp
  · by_cases h32 : i < 32 <;>
      simp [h2, h32, show ¬ i < 1 by omega]

/-! ### C1 / C6 / C8: the direct register effects of init -/

/-- C1 evidence (code bug): the FIFO-control step of `init` writes the
literal value 0 to the FCR write-view — `FCR::ClearReceiveFIFO::CLEAR +
FCR::ClearTransmitFIFO::CLEAR` contributes value 0 for both fields — so
both FIFO-clear bits (bits 1 and 2) are written as 0, not 1: no clear
pulse occurs. -/
theorem init_fcr_write_is_zero (s : RegState) :
    (init s).fcr = 0 ∧
    Nat.testBit (init s).fcr 1 = false ∧
    Nat.testBit (init s).fcr 2 = false := by
  refine ⟨?_, ?_, ?_⟩ <;> simp [init]

/-- C6: `init` programs the baud register with the integer (floor)
division 25000000 / 8 / 115200, which equals 27. -/
theorem init_baud_divisor (s : RegState) :
    (init s).baud = 25000000 / 8 / 115200 ∧ (init s).baud = 27 := by
  constructor <;> simp [init]

/-- C8: the interrupt-disable step of `init` writes the literal 0 over the
whole interrupt-enable register, and no later step of `init` touches it,
so the post-init IER value is exactly 0 (all four interrupt-source bits
clear). -/
theorem init_ier_zero (s : RegState) : (init s).ier = 0 := by
  simp [init]

/-! ### C4: the mux step is a read-modify-write -/

/-- C4: after `init`, bit 0 (Mux::UART) of the `enables` register is set,
and every other bit of that 32-bit register keeps its pre-init value.
The hypothesis `s.enables < 2 ^ 32` records that the register is `u32`. -/
theorem init_mux_rmw (s : RegState) (h : s.enables < 2 ^ 32) :
    Nat.testBit (init s).enables 0 = true ∧
    ∀ i, i ≠ 0 → Nat.testBit (init s).enables i = Nat.testBit s.enables i := by
  have he : (init s).enables = fvModify s.enables 1 1 := by simp [init]
  rw [he]
  constructor
  · simp [fvModify]
  · intro i hi
    simp only [fvModify, Nat.testBit_or, Nat.testBit_and, Nat.testBit_xor,
      testBit_num1, testBit_MASK32]
    by_cases h32 : i < 32
    · simp [h32, show ¬ i < 1 by omega]
    · have hhi : Nat.testBit s.enables i = false :=
        Nat.testBit_lt_two_pow (Nat.lt_of_lt_of_le h (Nat.pow_le_pow_right (by omega) (by omega)))
      simp [h32, hhi, show ¬ i < 1 by omega]

/-- Concrete register state for witnesses: every register holds 10. -/
def sTen : RegState := ⟨10, 10, 10, 10, 10, 10, 10, 10, 10⟩

/-- Witness for `init_mux_rmw` at the concrete state `sTen`: the
hypothesis holds and, for example, bit 1 of `enables` (which is 1 in 10)
survives `init` while bit 0 is forced to 1. -/
theorem init_mux_rmw_witness :
    sTen.enables < 2 ^ 32 ∧
    Nat.testBit (init sTen).enables 0 = true ∧
    Nat.testBit (init sTen).enables 1 = Nat.testBit sTen.enables 1 :=
  ⟨by decide, (init_mux_rmw sTen (by decide)).1,
    (init_mux_rmw sTen (by decide)).2 1 (by decide)⟩

/-! ### C5: init is idempotent -/

/-- C5: running `init` twice from any starting register state ends in
exactly the state one run reaches: every step is either a constant write
(`ier`, `fcr`, `baud`) or a read-modify-write whose target bits the first
run has already forced to their final values. -/
theorem init_idempotent (s : RegState) : init (init s) = init s := by
  simp only [init]
  ext
  · rfl
  · exact fvModify_idem s.enables 1 1
  · rfl
  · rfl
  · rfl
  · exact fvModify_idem s.lcr 3 3
  · exact fvModify_idem s.mcr 2 0
  · show fvModify (fvModify (fvModify (fvModify s.control 1 1) 3 3) 1 1) 3 3 =
      fvModify (fvModify s.control 1 1) 3 3
    rw [fvModify_one_after_three, fvModify_idem]
  · rfl

/-! ### C2 / C9: write_byte -/

/-- C2: in any state whose line-status THREmpty flag (bit 5) reads
non-zero at the current poll, `write_byte b` exits the spin loop at once,
stores exactly `b` in the transmit-holding write-view of the data
register, and returns. -/
theorem write_byte_thr (hw : HWTrace) (b : Fin 256) (fuel t : Nat)
    (s : RegState) (h : fieldRead (hw t).lsr 5 1 ≠ 0) :
    write_byte hw b (fuel + 1) t s = some ({ s with thr := b.val }, t + 1) := by
  rw [write_byte, if_neg h]

/-- Hardware trace for transmit witnesses: the line-status register always
reads 32 (THREmpty, bit 5, set; DataAvailable clear). -/
def hwTHR : HWTrace := fun _ => ⟨0, 32⟩

/-- Witness for `write_byte_thr`: at the trace `hwTHR` the flag hypothesis
holds, and writing byte 66 from state `sTen` stores 66 in `thr`. -/
theorem write_byte_thr_witness :
    fieldRead (hwTHR 0).lsr 5 1 ≠ 0 ∧
    write_byte hwTHR (66 : Fin 256) 1 0 sTen = some ({ sTen with thr := 66 }, 1) :=
  ⟨by decide, write_byte_thr hwTHR (66 : Fin 256) 0 0 sTen (by decide)⟩

/-- C9: whenever `write_byte` returns, every software-writable register
except the transmit-holding write-view `thr` holds exactly its prior
value.  (The read-only registers and read-views are hardware-owned inputs
in this model, which the driver cannot write at all.) -/
theorem write_byte_frame (hw : HWTrace) (b : Fin 256) :
    ∀ fuel t s s' t', write_byte hw b fuel t s = some (s', t') →
      s'.irq = s.irq ∧ s'.enables = s.enables ∧ s'.ier = s.ier ∧
      s'.fcr = s.fcr ∧ s'.lcr = s.lcr ∧ s'.mcr = s.mcr ∧
      s'.control = s.control ∧ s'.baud = s.baud := by
  intro fuel
  induction fuel with
  | zero =>
    intro t s s' t' h
    simp [write_byte] at h
  | succ n ih =>
    intro t s s' t' h
    rw [write_byte] at h
    split at h
    · exact ih (t + 1) s s' t' h
    · simp only [Option.some.injEq, Prod.mk.injEq] at h
      obtain ⟨h1, h2⟩ := h
      subst h1
      exact ⟨rfl, rfl, rfl, rfl, rfl, rfl, rfl, rfl⟩

/-- Witness for `write_byte_frame`: the concrete run from
`write_byte_thr_witness` leaves all non-`thr` registers of `sTen` intact. -/
theorem write_byte_frame_witness :
    ({ sTen with thr := 66 } : RegState).irq = sTen.irq ∧
    ({ sTen with thr := 66 } : RegState).enables = sTen.enables ∧
    ({ sTen with thr := 66 } : RegState).ier = sTen.ier ∧
    ({ sTen with thr := 66 } : RegState).fcr = sTen.fcr ∧
    ({ sTen with thr := 66 } : RegState).lcr = sTen.lcr ∧
    ({ sTen with thr := 66 } : RegState).mcr = sTen.mcr ∧
    ({ sTen with thr := 66 } : RegState).control = sTen.control ∧
    ({ sTen with thr := 66 } : RegState).baud = sTen.baud :=
  write_byte_frame hwTHR (66 : Fin 256) 1 0 sTen { sTen with thr := 66 } 1 (by decide)

/-! ### C3: read_byte returns only after observing DataAvailable -/

/-- C3: whenever `read_byte` returns, there was a poll instant `t + k` at
which the DataAvailable flag (line-status bit 0) read non-zero, every
earlier poll of the loop read it as zero (so the function never returns
while the flag is clear), and the returned byte is the Data field of the
receive-buffer read-view fetched by the access following that poll. -/
theorem read_byte_returns_only_on_data (hw : HWTrace) :
    ∀ fuel t r t', read_byte hw fuel t = some (r, t') →
      ∃ k, fieldRead (hw (t + k)).lsr 0 1 ≠ 0 ∧
        (∀ j, j < k → fieldRead (hw (t + j)).lsr 0 1 = 0) ∧
        r = fieldRead (hw (t + k + 1)).rbr 0 8 ∧
        t' = t + k + 2 := by
  intro fuel
  induction fuel with
  | zero =>
    intro t r t' h
    simp [read_byte] at h
  | succ n ih =>
    intro t r t' h
    rw [read_byte] at h
    split at h
    case isTrue hc =>
      obtain ⟨k, hk1, hk2, hk3, hk4⟩ := ih (t + 1) r t' h
      refine ⟨k + 1, ?_, ?_, ?_, by omega⟩
      · rw [show t + (k + 1) = t + 1 + k by omega]
        exact hk1
      · intro j hj
        rcases j with _ | j'
        · exact hc
        · rw [show t + (j' + 1) = t + 1 + j' by omega]
          exact hk2 j' (by omega)
      · rw [show t + (k + 1) + 1 = t + 1 + k + 1 by omega]
        exact hk3
    case isFalse hc =>
      simp only [Option.some.injEq, Prod.mk.injEq] at h
      obtain ⟨h1, h2⟩ := h
      exact ⟨0, hc, fun j hj => absurd hj (Nat.not_lt_zero j), h1.symm, h2.symm⟩

/-- Hardware trace for receive witnesses: the line-status register always
reads 1 (DataAvailable set) and the receive buffer always holds 65. -/
def hwDATA : HWTrace := fun _ => ⟨65, 1⟩

/-- Witness for `read_byte_returns_only_on_data`: on the trace `hwDATA`,
`read_byte` with one unit of fuel returns byte 65 at time 2, and the
theorem recovers the poll instant. -/
theorem read_byte_returns_only_on_data_witness :
    ∃ k, fieldRead (hwDATA (0 + k)).lsr 0 1 ≠ 0 ∧
      (∀ j, j < k → fieldRead (hwDATA (0 + j)).lsr 0 1 = 0) ∧
      (65 : Nat) = fieldRead (hwDATA (0 + k + 1)).rbr 0 8 ∧
      (2 : Nat) = 0 + k + 2 :=
  read_byte_returns_only_on_data hwDATA 1 0 65 2 (by decide)

/-! ### C7: write_bytes is the sequential composition of write_byte -/

/-- Specification-side reading of `write_bytes`, following the spec's
words "applies write_byte to each element in order ... equivalent to
sequential single-byte calls": a left fold that threads the state through
one `write_byte` call per element, in list order, via `Option.bind`. -/
def writeByteSeq (hw : HWTrace) (fuel : Nat) (l : List (Fin 256))
    (t : Nat) (s : RegState) : Option (RegState × Nat) :=
  l.foldl (fun acc b => acc.bind fun p => write_byte hw b fuel p.2 p.1)
    (some (s, t))

/-- Once a `write_byte` in the chain fails to return, the rest of the
sequential composition is also non-returning. -/
lemma foldl_bind_none (hw : HWTrace) (fuel : Nat) :
    ∀ l : List (Fin 256),
      List.foldl (fun acc b => acc.bind fun p => write_byte hw b fuel p.2 p.1)
        none l = none := by
  intro l
  induction l with
  | nil => rfl
  | cons b rest ih => simpa using ih

/-- C7: `write_bytes` is exactly the in-order sequential composition of
`write_byte` over the elements of the list (first conjunct, every list);
in particular on `[a, b, c]` it is `write_byte a` then `write_byte b`
then `write_byte c`, with no reordering, omission or extra writes
(second conjunct). -/
theorem write_bytes_refines_seq (hw : HWTrace) (fuel : Nat) :
    (∀ l t s, write_bytes hw fuel l t s = writeByteSeq hw fuel l t s) ∧
    (∀ a b c t s, write_bytes hw fuel [a, b, c] t s =
      (write_byte hw a fuel t s).bind fun p =>
        (write_byte hw b fuel p.2 p.1).bind fun q =>
          write_byte hw c fuel q.2 q.1) := by
  have hgen : ∀ l t s, write_bytes hw fuel l t s = writeByteSeq hw fuel l t s := by
    intro l
    induction l with
    | nil =>
      intro t s
      rfl
    | cons b rest ih =>
      intro t s
      rw [write_bytes, writeByteSeq, List.foldl_cons, Option.some_bind]
      cases hwb : write_byte hw b fuel t s with
      | none => simp [foldl_bind_none hw fuel rest]
      | some p =>
        obtain ⟨s', t'⟩ := p
        exact ih t' s'
  refine ⟨hgen, ?_⟩
  intro a b c t s
  rw [hgen [a, b, c] t s, writeByteSeq]
  simp only [List.foldl_cons, List.foldl_nil, Option.some_bind]
  cases ha : write_byte hw a fuel t s with
  | none => rfl
  | some p => rfl

/-! ### C10: write_str always reports Ok -/

/-- C10: whenever `write_str` returns, the `core::fmt::Result` it yields
is `Ok(())`, and its effect on the register block is exactly that of
`write_bytes` on the string's UTF-8 bytes. -/
theorem write_str_always_ok (hw : HWTrace) (fuel : Nat)
    (bytes : List (Fin 256)) (t : Nat) (s : RegState) (p : RegState × Nat)
    (r : Except Unit Unit)
    (h : write_str hw fuel bytes t s = some (p, r)) :
    r = Except.ok () ∧ write_bytes hw fuel bytes t s = some p := by
  rw [write_str] at h
  cases hwb : write_bytes hw fuel bytes t s with
  | none =>
    rw [hwb] at h
    exact absurd h (by simp)
  | some q =>
    rw [hwb] at h
    simp only [Option.some.injEq, Prod.mk.injEq] at h
    obtain ⟨h1, h2⟩ := h
    exact ⟨h2.symm, by rw [h1]⟩

/-- Witness for `write_str_always_ok`: the one-byte string with byte 66,
written from state `sTen` on the trace `hwTHR`, returns `Ok(())` and has
the `write_bytes` effect. -/
theorem write_str_always_ok_witness :
    (Except.ok () : Except Unit Unit) = Except.ok () ∧
    write_bytes hwTHR 1 [(66 : Fin 256)] 0 sTen =
      some ({ sTen with thr := 66 }, 1) :=
  write_str_always_ok hwTHR 1 [(66 : Fin 256)] 0 sTen
    ({ sTen with thr := 66 }, 1) (Except.ok ()) rfl
